import Mathlib

/-!
Verification of the seaborn plot-compilation core against its specification.

The embedding models tabular data as association lists of column name to
value, with an explicit `null` value standing for missing data (pandas NA).
Functions whose bodies are present in the source are translated directly;
functions whose bodies are absent from the source tree are modelled from the
specification and marked as such in their doc comments.
-/

namespace Seaborn

/-- A cell value in a data table: string, rational number, boolean, or null
(missing).  Rationals stand in for the floating-point numbers of the source. -/
inductive Val where
  | str (s : String)
  | num (q : ℚ)
  | boolean (b : Bool)
  | null
deriving DecidableEq

/-- Association-list lookup by column name. -/
def alookup {β : Type} (l : List (String × β)) (c : String) : Option β :=
  (l.find? (fun p => p.1 == c)).map Prod.snd

/-- A row of a data table: an association list from column names to values. -/
abbrev Row := List (String × Val)

/-- Value of a column in a row; absent columns read as `null`. -/
def rowGet (r : Row) (c : String) : Val :=
  (alookup r c).getD Val.null

/-- Whether a row carries an entry for a column. -/
def rowHas (r : Row) (c : String) : Bool :=
  r.any (fun p => p.1 == c)

/-- A data table: an ordered list of column names and a list of rows. -/
structure DataFrame where
  cols : List String
  rows : List Row

/-- Unique values of a list in order of first observation. -/
def firstSeen {α : Type} [DecidableEq α] : List α → List α
  | [] => []
  | x :: xs => x :: firstSeen (xs.filter (fun y => y ≠ x))
termination_by l => l.length
decreasing_by
  simp only [List.length_cons]
  exact Nat.lt_succ_of_le (List.length_filter_le _ _)

/-- Numeric content of a value, defaulting to zero for non-numbers. -/
def Val.toQ : Val → ℚ
  | .num q => q
  | _ => 0

/-- Whether every non-null entry of a vector is numeric. -/
def isNumericVec (v : List Val) : Bool :=
  v.all (fun x => match x with
    | .num _ => true
    | .null => true
    | _ => false)

/-- Numeric comparison of values, used for sorting numeric level orders. -/
def valLe (a b : Val) : Prop := a.toQ ≤ b.toQ

instance : DecidableRel valLe := fun a b => by
  unfold valLe
  infer_instance

/-- Modelled from the spec: the body of `categorical_order` in
`seaborn/_core/rules.py` is absent from the source tree.  Per the spec's
`canonical_order` rules: when an explicit order is given it is returned
verbatim (values absent from the data included); otherwise the unique
non-null values are returned, sorted numerically when the vector is numeric
and in first-observed order otherwise. -/
def categorical_order (vector : List Val) (order : Option (List Val)) : List Val :=
  match order with
  | some o => o
  | none =>
    let uniq := firstSeen (vector.filter (fun x => x ≠ Val.null))
    if isNumericVec vector then uniq.insertionSort valLe else uniq

theorem firstSeen_subset {α : Type} [DecidableEq α] (l : List α) :
    ∀ x ∈ firstSeen l, x ∈ l := by
  induction l using firstSeen.induct with
  | case1 => intro x hx; simp [firstSeen] at hx
  | case2 y ys ih =>
    intro x hx
    rw [firstSeen] at hx
    rcases List.mem_cons.mp hx with h | h
    · simp [h]
    · have := ih x h
      exact List.mem_cons_of_mem _ (List.mem_of_mem_filter this)

/-- The claim C2: an explicit order is returned verbatim, and the derived
order never contains null values.  Stated for `categorical_order`. -/
theorem claim_c2_categorical_order (v : List Val) (o : List Val) :
    categorical_order v (some o) = o ∧ Val.null ∉ categorical_order v none := by
  constructor
  · rfl
  · intro hmem
    unfold categorical_order at hmem
    simp only at hmem
    have hnn : Val.null ∉ firstSeen (v.filter (fun x => x ≠ Val.null)) := by
      intro h
      have := firstSeen_subset _ _ h
      have := List.of_mem_filter this
      simp at this
    by_cases hnum : isNumericVec v
    · rw [if_pos hnum] at hmem
      have := (List.perm_insertionSort valLe
        (firstSeen (v.filter (fun x => x ≠ Val.null)))).mem_iff.mp hmem
      exact hnn this
    · rw [if_neg hnum] at hmem
      exact hnn hmem

/-! ## Grouped aggregation engine (`seaborn/_core/groupby.py`) -/

/-- Python exception values raised by the embedded functions. -/
inductive PyError where
  | valueError (msg : String)
  | runtimeError (msg : String)
  | configurationError (msg : String)
deriving DecidableEq

/-- The grouping specification accepted by `GroupBy.__init__`: either a list
of variable names, or a dict mapping names to optional explicit level
orders. -/
inductive GroupBySpec where
  | byNames (names : List String)
  | byOrders (orders : List (String × Option (List Val)))
deriving DecidableEq

/-- The variable names mentioned by a grouping specification. -/
def GroupBySpec.vars : GroupBySpec → List String
  | .byNames ns => ns
  | .byOrders os => os.map Prod.fst

/-- A constructed `GroupBy`: an ordered mapping from grouping-variable name
to an optional explicit level order. -/
structure GroupBy where
  order : List (String × Option (List Val))
deriving DecidableEq

/-- Embedding of `GroupBy.__init__`: an empty specification raises
`ValueError`; a list of names is converted to a mapping with default
(`None`) level orders, deduplicating names as a Python dict comprehension
does. -/
def GroupBy.init : GroupBySpec → Except PyError GroupBy
  | .byNames ns =>
      if ns.isEmpty then
        .error (.valueError "GroupBy requires at least one grouping variable")
      else
        .ok ⟨(firstSeen ns).map (fun n => (n, none))⟩
  | .byOrders os =>
      if os.isEmpty then
        .error (.valueError "GroupBy requires at least one grouping variable")
      else
        .ok ⟨os⟩

/-- The claim C8: constructing the grouped aggregation engine with zero
grouping variables raises an error at construction time (the source raises
`ValueError`, the spec's name for this configuration-time failure category
is `ConfigurationError`), and construction with at least one grouping
variable succeeds. -/
theorem claim_c8_groupby_init (s : GroupBySpec) :
    (GroupBy.init s
        = .error (.valueError "GroupBy requires at least one grouping variable")
      ↔ s.vars = [])
    ∧ (s.vars ≠ [] → ∃ g, GroupBy.init s = .ok g) := by
  constructor
  · cases s with
    | byNames ns =>
      cases ns with
      | nil => simp [GroupBy.init, GroupBySpec.vars]
      | cons n ns => simp [GroupBy.init, GroupBySpec.vars]
    | byOrders os =>
      cases os with
      | nil => simp [GroupBy.init, GroupBySpec.vars]
      | cons o os => simp [GroupBy.init, GroupBySpec.vars]
  · intro h
    cases s with
    | byNames ns =>
      cases ns with
      | nil => simp [GroupBySpec.vars] at h
      | cons n ns => exact ⟨_, rfl⟩
    | byOrders os =>
      cases os with
      | nil => simp [GroupBySpec.vars] at h
      | cons o os => exact ⟨_, rfl⟩

/-- Witness for C8 at concrete inputs: construction succeeds on one grouping
variable, and the error equivalence holds for the empty specification. -/
theorem claim_c8_groupby_init_witness :
    (∃ g, GroupBy.init (.byNames ["a"]) = .ok g)
    ∧ GroupBy.init (.byNames [])
        = .error (.valueError "GroupBy requires at least one grouping variable") :=
  ⟨(claim_c8_groupby_init (.byNames ["a"])).2 (by decide),
   (claim_c8_groupby_init (.byNames [])).1.mpr (by decide)⟩

/-- Modelled from the spec: the grouping variables kept by `_get_groups` are
those of `self.order` that appear among the data's columns; the others are
dropped before the groups are defined (per the `GroupBy.__init__`
docstring). -/
def GroupBy.usedVars (g : GroupBy) (df : DataFrame) : List (String × Option (List Val)) :=
  g.order.filter (fun p => df.cols.contains p.1)

/-- Modelled from the spec: the resolved level order of one grouping
variable, from its explicit order when given and from the data column via
the canonical ordering rules otherwise. -/
def resolveLevels (df : DataFrame) (p : String × Option (List Val)) : List Val :=
  categorical_order (df.rows.map (fun r => rowGet r p.1)) p.2

/-- Cartesian product of level lists, first variable varying slowest. -/
def cartesianProduct : List (List Val) → List (List Val)
  | [] => [[]]
  | ls :: rest => ls.flatMap (fun v => (cartesianProduct rest).map (fun t => v :: t))

/-- Modelled from the spec: `GroupBy._get_groups` returns the index holding
the Cartesian product of the ordered grouping-variable levels, including
combinations absent from the data. -/
def GroupBy.groupIndex (g : GroupBy) (df : DataFrame) : List (List Val) :=
  cartesianProduct ((g.usedVars df).map (resolveLevels df))

/-- Whether a row belongs to the group keyed by `key` for variables `vars`. -/
def rowMatches (vars : List String) (key : List Val) (r : Row) : Bool :=
  (vars.zip key).all (fun p => rowGet r p.1 == p.2)

/-- Modelled from the spec: `GroupBy.agg` reduces each group to a single
output row, with one row for every combination of the grouping-variable
levels and null aggregate values for the combinations that do not appear in
the data (per the `GroupBy.agg` docstring and §4.3 of the spec).  The
reductions are an ordered list of new column names with their reducing
functions. -/
def GroupBy.agg (g : GroupBy) (df : DataFrame)
    (aggs : List (String × (List Row → Val))) : List Row :=
  let vars := (g.usedVars df).map Prod.fst
  (g.groupIndex df).map (fun key =>
    let grp := df.rows.filter (rowMatches vars key)
    vars.zip key ++ aggs.map (fun a => (a.1, if grp.isEmpty then Val.null else a.2 grp)))

theorem rowGet_cons (a : String) (b : Val) (r : Row) (c : String) :
    rowGet ((a, b) :: r) c = if a == c then b else rowGet r c := by
  by_cases h : a == c
  · simp [rowGet, alookup, List.find?, h]
  · simp only [Bool.not_eq_true] at h
    simp [rowGet, alookup, List.find?, h]

theorem rowGet_eq_null_of_all (r : Row) (c : String)
    (h : ∀ p ∈ r, p.1 = c → p.2 = Val.null) : rowGet r c = Val.null := by
  induction r with
  | nil => rfl
  | cons p r ih =>
    rw [show p = (p.1, p.2) from rfl, rowGet_cons]
    by_cases hc : p.1 == c
    · rw [if_pos hc]
      exact h p (List.mem_cons_self _ _) (by simpa using hc)
    · rw [if_neg hc]
      exact ih (fun q hq => h q (List.mem_cons_of_mem _ hq))

theorem rowGet_zip_append (vars : List String) (key : List Val) (tail : Row)
    (hnd : vars.Nodup) (hlen : key.length = vars.length) :
    vars.map (fun v => rowGet (vars.zip key ++ tail) v) = key := by
  induction vars generalizing key with
  | nil =>
    cases key with
    | nil => rfl
    | cons k ks => simp at hlen
  | cons v vs ih =>
    cases key with
    | nil => simp at hlen
    | cons k ks =>
      have hnd2 := List.nodup_cons.mp hnd
      simp only [List.zip_cons_cons, List.cons_append, List.map_cons]
      rw [rowGet_cons, if_pos (by simp)]
      congr 1
      have hstep : ∀ w ∈ vs,
          rowGet ((v, k) :: (vs.zip ks ++ tail)) w = rowGet (vs.zip ks ++ tail) w := by
        intro w hw
        rw [rowGet_cons, if_neg]
        simp only [beq_iff_eq]
        intro hvw
        exact hnd2.1 (hvw ▸ hw)
      rw [List.map_congr_left hstep]
      exact ih ks hnd2.2 (by simpa using hlen)

theorem cartesianProduct_length (ls : List (List Val)) :
    (cartesianProduct ls).length = (ls.map List.length).prod := by
  induction ls with
  | nil => rfl
  | cons l rest ih =>
    simp only [cartesianProduct, List.length_flatMap, Function.comp_def,
      List.length_map, List.map_cons, List.prod_cons]
    rw [List.map_const', List.sum_replicate, smul_eq_mul, ih]

theorem length_of_mem_cartesianProduct (ls : List (List Val)) (key : List Val)
    (h : key ∈ cartesianProduct ls) : key.length = ls.length := by
  induction ls generalizing key with
  | nil =>
    simp only [cartesianProduct, List.mem_singleton] at h
    simp [h]
  | cons l rest ih =>
    simp only [cartesianProduct, List.mem_flatMap, List.mem_map] at h
    obtain ⟨v, _, t, ht, rfl⟩ := h
    simp [ih t ht]

/-- The claim C1: with all grouping variables present in the data, `agg`
returns exactly one row per combination of the Cartesian product of the
resolved level orders — the output length is the product of the level
counts, the group-key part of the i-th output row is the i-th combination —
and the aggregated columns of combinations unobserved in the data hold
null. -/
theorem claim_c1_groupby_agg_cartesian (g : GroupBy) (df : DataFrame)
    (aggs : List (String × (List Row → Val)))
    (hpresent : ∀ p ∈ g.order, df.cols.contains p.1 = true)
    (hnodup : (g.order.map Prod.fst).Nodup)
    (haggs : ∀ a ∈ aggs, a.1 ∉ g.order.map Prod.fst) :
    (g.agg df aggs).length = (g.order.map (fun p => (resolveLevels df p).length)).prod
    ∧ (g.agg df aggs).map (fun r => (g.order.map Prod.fst).map (fun v => rowGet r v))
        = g.groupIndex df
    ∧ ∀ i : ℕ, (∀ r ∈ df.rows,
          rowMatches (g.order.map Prod.fst) ((g.groupIndex df).getD i []) r = false) →
        ∀ a ∈ aggs, rowGet ((g.agg df aggs).getD i []) a.1 = Val.null := by
  have hused : g.usedVars df = g.order := List.filter_eq_self.mpr hpresent
  refine ⟨?_, ?_, ?_⟩
  · unfold GroupBy.agg GroupBy.groupIndex
    rw [hused, List.length_map, cartesianProduct_length, List.map_map]
    rfl
  · unfold GroupBy.agg
    rw [List.map_map]
    have : ∀ key ∈ g.groupIndex df,
        ((g.order.map Prod.fst).map (fun v => rowGet
          (((g.usedVars df).map Prod.fst).zip key
            ++ aggs.map (fun a => (a.1,
              if (df.rows.filter (rowMatches ((g.usedVars df).map Prod.fst) key)).isEmpty
              then Val.null
              else a.2 (df.rows.filter (rowMatches ((g.usedVars df).map Prod.fst) key)))) : Row)
          v)) = key := by
      intro key hkey
      rw [hused]
      have hlen : key.length = (g.order.map Prod.fst).length := by
        have h2 := length_of_mem_cartesianProduct _ _ (by
          unfold GroupBy.groupIndex at hkey
          exact hkey)
        rw [hused] at h2
        simpa using h2
      exact rowGet_zip_append _ _ _ hnodup hlen
    calc (g.groupIndex df).map _
        = (g.groupIndex df).map id := List.map_congr_left (by
          intro key hkey
          exact this key hkey)
      _ = g.groupIndex df := List.map_id _
  · intro i hunobs a ha
    by_cases hi : i < (g.groupIndex df).length
    · have hagg : (g.agg df aggs).getD i []
          = (let vars := (g.usedVars df).map Prod.fst
             let key := (g.groupIndex df).getD i []
             let grp := df.rows.filter (rowMatches vars key)
             vars.zip key
               ++ aggs.map (fun a => (a.1, if grp.isEmpty then Val.null else a.2 grp))) := by
        unfold GroupBy.agg
        simp only [List.getD_eq_getElem?_getD, List.getElem?_map]
        rw [List.getElem?_eq_getElem hi]
        simp [List.getD_eq_getElem?_getD, List.getElem?_eq_getElem hi]
      rw [hagg]
      apply rowGet_eq_null_of_all
      intro p hp hpc
      simp only at hp
      rcases List.mem_append.mp hp with hzip | hagp
      · exfalso
        have h1 : p.1 ∈ (g.usedVars df).map Prod.fst := by
          have := List.of_mem_zip hzip
          exact this.1
        rw [hused] at h1
        rw [hpc] at h1
        exact haggs a ha h1
      · obtain ⟨b, hb, hbeq⟩ := List.mem_map.mp hagp
        have hgrp : (df.rows.filter
            (rowMatches ((g.usedVars df).map Prod.fst) ((g.groupIndex df).getD i []))).isEmpty
              = true := by
          rw [List.isEmpty_iff, List.filter_eq_nil_iff]
          intro r hr
          have h3 := hunobs r hr
          rw [hused]
          simpa using h3
        rw [← hbeq]
        simp only [hgrp]
        simp
    · have : (g.agg df aggs).getD i [] = [] := by
        apply List.getD_eq_default
        unfold GroupBy.agg
        simpa using Nat.le_of_not_lt hi
      rw [this]
      rfl

/-- Witness for C1 at the spec's empty-group example: grouping variables
A with levels a1,a2 and B with levels b1,b2, data containing only the
combination (a1,b1); aggregation returns 4 rows and the aggregate column of
the unobserved combination (a1,b2) is null. -/
theorem claim_c1_groupby_agg_cartesian_witness :
    (GroupBy.agg ⟨[("A", some [Val.str "a1", Val.str "a2"]),
                   ("B", some [Val.str "b1", Val.str "b2"])]⟩
       ⟨["A", "B", "y"], [[("A", Val.str "a1"), ("B", Val.str "b1"), ("y", Val.num 3)]]⟩
       [("y", fun grp => Val.num ((grp.map (fun r => (rowGet r "y").toQ)).sum))]).length
      = 4
    ∧ rowGet ((GroupBy.agg ⟨[("A", some [Val.str "a1", Val.str "a2"]),
                   ("B", some [Val.str "b1", Val.str "b2"])]⟩
       ⟨["A", "B", "y"], [[("A", Val.str "a1"), ("B", Val.str "b1"), ("y", Val.num 3)]]⟩
       [("y", fun grp => Val.num ((grp.map (fun r => (rowGet r "y").toQ)).sum))]).getD 1 [])
       "y" = Val.null := by
  have h := claim_c1_groupby_agg_cartesian
    ⟨[("A", some [Val.str "a1", Val.str "a2"]), ("B", some [Val.str "b1", Val.str "b2"])]⟩
    ⟨["A", "B", "y"], [[("A", Val.str "a1"), ("B", Val.str "b1"), ("y", Val.num 3)]]⟩
    [("y", fun grp => Val.num ((grp.map (fun r => (rowGet r "y").toQ)).sum))]
    (by decide) (by decide)
    (by intro a ha
        rcases List.mem_singleton.mp ha with rfl
        decide)
  constructor
  · rw [h.1]
    decide
  · exact h.2.2 1 (by decide) _ (List.Mem.head _)

/-! ## Interval properties and point size (`seaborn/_core/properties.py`) -/

/-- Modelled from the spec: the body of `PointSize._forward` is absent from
the source tree; per its docstring and the spec it squares native values so
that point area, not diameter, scales linearly with data. -/
def PointSize._forward (x : ℝ) : ℝ := x ^ 2

/-- Modelled from the spec: the body of `PointSize._inverse` is absent from
the source tree; per its docstring and the spec it takes the square root of
areal values back to point diameters. -/
noncomputable def PointSize._inverse (x : ℝ) : ℝ := Real.sqrt x

/-- Modelled from the spec: `IntervalProperty.get_mapping` (body absent from
the source tree) maps a normalized data value by linear interpolation in the
forward-transformed range followed by the inverse transform. -/
noncomputable def intervalMapping (fwd inv : ℝ → ℝ) (lo hi : ℝ) (t : ℝ) : ℝ :=
  inv (fwd lo + t * (fwd hi - fwd lo))

/-- The size mapping of a `PointSize` scale with range `(lo, hi)` applied to
a normalized data value. -/
noncomputable def PointSize.mapping (lo hi t : ℝ) : ℝ :=
  intervalMapping PointSize._forward PointSize._inverse lo hi t

/-- The claim C3: `PointSize._inverse` inverts `PointSize._forward` on
nonnegative inputs; with range (2, 8), normalized values 0 and 1 resolve to
diameters exactly 2 and 8; and the squared resolved size is linear in the
normalized value (area-linear scaling). -/
theorem claim_c3_pointsize_area_linear (x t : ℝ) (hx : 0 ≤ x) (ht : 0 ≤ t) :
    PointSize._inverse (PointSize._forward x) = x
    ∧ PointSize.mapping 2 8 0 = 2
    ∧ PointSize.mapping 2 8 1 = 8
    ∧ (PointSize.mapping 2 8 t) ^ 2 = 4 + 60 * t := by
  refine ⟨?_, ?_, ?_, ?_⟩
  · unfold PointSize._inverse PointSize._forward
    exact Real.sqrt_sq hx
  · unfold PointSize.mapping intervalMapping PointSize._inverse PointSize._forward
    norm_num
    rw [show (4 : ℝ) = 2 ^ 2 by norm_num]
    exact Real.sqrt_sq (by norm_num)
  · unfold PointSize.mapping intervalMapping PointSize._inverse PointSize._forward
    norm_num
    rw [show (64 : ℝ) = 8 ^ 2 by norm_num]
    exact Real.sqrt_sq (by norm_num)
  · unfold PointSize.mapping intervalMapping PointSize._inverse PointSize._forward
    have h4 : (0 : ℝ) ≤ 2 ^ 2 + t * (8 ^ 2 - 2 ^ 2) := by nlinarith
    rw [Real.sq_sqrt h4]
    ring

/-- Witness for C3 at concrete inputs x = 3 and t = 1/2. -/
theorem claim_c3_pointsize_area_linear_witness :
    PointSize._inverse (PointSize._forward 3) = 3
    ∧ (PointSize.mapping 2 8 (1/2)) ^ 2 = 4 + 60 * (1/2) :=
  ⟨(claim_c3_pointsize_area_linear 3 (1/2) (by norm_num) (by norm_num)).1,
   (claim_c3_pointsize_area_linear 3 (1/2) (by norm_num) (by norm_num)).2.2.2⟩

/-! ## Boolean scale (`seaborn/_core/scales.py`) -/

/-- Modelled from the spec and the `Boolean` docstring in the source:
property mappings and legends of a boolean scale use a [True, False]
ordering rather than a sort using numeric rules (`Boolean` has no `_setup`
body in the source tree). -/
def booleanOrder : List Bool := [true, false]

/-- Modelled from the spec: the levels used by a boolean scale's property
mapping and legend are the fixed [True, False] order, independent of the
data. -/
def booleanLevels (data : List (Option Bool)) : List Bool := booleanOrder

/-- Modelled from the spec: the legend of a boolean scale. -/
def booleanLegend (data : List (Option Bool)) : List Bool × List String :=
  (booleanOrder, ["True", "False"])

/-- Unique non-null boolean values of the data in first-observed order. -/
def observedBoolLevels (data : List (Option Bool)) : List Bool :=
  firstSeen (data.filterMap id)

/-- Numeric comparison of booleans under their 0/1 encoding. -/
def boolNumLe (a b : Bool) : Prop := (cond a 1 0 : ℕ) ≤ cond b 1 0

instance : DecidableRel boolNumLe := fun a b => by
  unfold boolNumLe
  infer_instance

instance : IsTotal Bool boolNumLe := ⟨by decide⟩

instance : IsTrans Bool boolNumLe := ⟨by decide⟩

/-- The level order a naive numeric sort of the observed values would
produce. -/
def numericSortedBoolLevels (data : List (Option Bool)) : List Bool :=
  (observedBoolLevels data).insertionSort boolNumLe

/-- Modelled from the spec: `IntervalProperty._get_boolean_mapping` (body
absent from the source tree) assigns one value per level of the
[True, False] order, evenly spaced from the top of the range downward, so
two levels receive [hi, lo]. -/
def intervalBooleanValues (lo hi : ℚ) : List ℚ := [hi, lo]

/-- Modelled from the spec: the boolean property mapping pairs the
[True, False] levels with their values. -/
def intervalBooleanMapping (lo hi : ℚ) (x : Bool) : ℚ :=
  (((booleanOrder.zip (intervalBooleanValues lo hi)).find? (fun p => p.1 == x)).map
    Prod.snd).getD 0

/-- Modelled from the spec: for coordinate variables the boolean axis limits
are inverted (upper limit first) so the [True, False] order reads in the
intuitive direction although True sits at numeric position 1. -/
def booleanAxisLimits : ℚ × ℚ := (3/2, -(1/2))

/-- The claim C4: a boolean scale's property mapping and legend use exactly
the two levels in [True, False] order for every dataset, this order is never
the numerically sorted order of the observed values, the mapping assigns
True the top of the range and False the bottom, and the coordinate axis
limits are inverted. -/
theorem claim_c4_boolean_order (data : List (Option Bool)) (lo hi : ℚ) :
    booleanLevels data = [true, false]
    ∧ booleanLegend data = ([true, false], ["True", "False"])
    ∧ booleanLevels data ≠ numericSortedBoolLevels data
    ∧ intervalBooleanMapping lo hi true = hi
    ∧ intervalBooleanMapping lo hi false = lo
    ∧ booleanAxisLimits.2 < booleanAxisLimits.1 := by
  refine ⟨rfl, rfl, ?_, rfl, rfl, by norm_num [booleanAxisLimits]⟩
  intro h
  have hs := List.sorted_insertionSort boolNumLe (observedBoolLevels data)
  have h2 : ([true, false] : List Bool)
      = (observedBoolLevels data).insertionSort boolNumLe := h
  rw [← h2] at hs
  have := (List.sorted_cons.mp hs).1 false (by simp)
  exact absurd this (by decide)

/-! ## Subplot layout engine (`seaborn/_core/subplots.py`) -/

/-- Faceting directives: the facet variables bound to the column and row
dimensions and an optional wrap count. -/
structure FacetSpec where
  colVar : Option String
  rowVar : Option String
  wrap : Option Nat
deriving DecidableEq

/-- Pairing directives: the x and y paired-variable sequences, an optional
wrap count, and the cross flag. -/
structure PairSpec where
  xVars : List String
  yVars : List String
  wrap : Option Nat
  cross : Bool
deriving DecidableEq

/-- Modelled from the spec: `Subplots._check_dimension_uniqueness` (body
absent from the source tree) rejects a spec that asks one figure dimension
to carry both a facet variable and a paired-variable sequence, raising
`ConfigurationError`: pairing on x occupies the column dimension and
collides with a column facet; pairing on y occupies the row dimension and
collides with a row facet. -/
def checkDimensionUniqueness (f : FacetSpec) (p : PairSpec) : Except PyError Unit :=
  if f.colVar.isSome && !p.xVars.isEmpty then
    .error (.configurationError "Cannot facet the columns while pairing on x")
  else if f.rowVar.isSome && !p.yVars.isEmpty then
    .error (.configurationError "Cannot facet the rows while pairing on y")
  else
    .ok ()

/-- A constructed subplot layout.  Only the validated specification is
recorded; the grid-structure fields are computed by helpers whose bodies are
absent from the source tree. -/
structure Subplots where
  subplot_spec : List (String × Val)
  facet_spec : FacetSpec
  pair_spec : PairSpec

/-- Embedding of `Subplots.__init__`: the constructor stores the subplot
keyword args and runs the dimension-uniqueness check before any other
computation; it receives no data at all, so the check is a function of the
facet and pair specifications alone. -/
def Subplots.init (sp : List (String × Val)) (f : FacetSpec) (p : PairSpec) :
    Except PyError Subplots :=
  match checkDimensionUniqueness f p with
  | .error e => .error e
  | .ok _ => .ok ⟨sp, f, p⟩

/-- The claim C5: a facet variable and a paired-variable sequence on the
same figure dimension make construction fail with `ConfigurationError`; the
constructor takes no data, so the error is raised during spec construction
before any data-dependent computation. -/
theorem claim_c5_dimension_collision (sp : List (String × Val))
    (f : FacetSpec) (p : PairSpec)
    (h : (f.colVar.isSome = true ∧ p.xVars ≠ [])
      ∨ (f.rowVar.isSome = true ∧ p.yVars ≠ [])) :
    ∃ msg, Subplots.init sp f p = .error (.configurationError msg) := by
  unfold Subplots.init checkDimensionUniqueness
  rcases h with ⟨h1, h2⟩ | ⟨h1, h2⟩
  · rw [if_pos (by simp [h1, h2])]
    exact ⟨_, rfl⟩
  · by_cases hcol : f.colVar.isSome = true ∧ p.xVars ≠ []
    · rw [if_pos (by simp [hcol.1, hcol.2])]
      exact ⟨_, rfl⟩
    · rw [if_neg (by
        simp only [Bool.and_eq_true, Bool.not_eq_true']
        intro hc
        rcases hc with ⟨hc1, hc2⟩
        exact hcol ⟨hc1, by simpa using hc2⟩),
        if_pos (by simp [h1, h2])]
      exact ⟨_, rfl⟩

/-- Witness for C5 at the spec's example: a column facet on `g` together
with pairing x across [x1, x2]. -/
theorem claim_c5_dimension_collision_witness :
    ∃ msg, Subplots.init [] ⟨some "g", none, none⟩ ⟨["x1", "x2"], [], none, true⟩
      = .error (.configurationError msg) :=
  claim_c5_dimension_collision [] ⟨some "g", none, none⟩ ⟨["x1", "x2"], [], none, true⟩
    (Or.inl ⟨rfl, by decide⟩)

/-! ## Data binding (`seaborn/_core/data.py`) -/

/-- A data source: named columns plus an identity token distinguishing the
source object (Python uses `id()` of the object). -/
structure Source where
  cols : List (String × List Val)
  ident : Nat
deriving DecidableEq

/-- One entry of a variable specification: either the name of a column in
the source, or a directly supplied vector carrying its own identity
token. -/
inductive VarBinding where
  | colName (name : String)
  | vector (vals : List Val) (ident : Nat)
deriving DecidableEq

/-- Modelled from the spec (§4.2): resolution of one binding against a
source.  A column name is looked up in the source; a vector is taken as
given.  Binding-time `BindingError` handling is outside this claim, so an
absent column resolves to an empty column. -/
def resolveVals (src : Source) : VarBinding → List Val
  | .colName n => (alookup src.cols n).getD []
  | .vector vs _ => vs

/-- The source name recorded for a binding: the column name, or none for a
direct vector. -/
def resolveName (src : Source) : VarBinding → Option String
  | .colName n => some n
  | .vector _ _ => none

/-- The identity token recorded for a binding. -/
def resolveId (src : Source) : VarBinding → Nat
  | .colName _ => src.ident
  | .vector _ i => i

/-- The canonical dataset: the variable table plus the name and identity
registries. -/
structure PlotData where
  frame : List (String × List Val)
  names : List (String × Option String)
  ids : List (String × Nat)
deriving DecidableEq

/-- Modelled from the spec: `PlotData.join` (body absent from the source
tree) produces a new dataset overlaying the new specification's bindings on
the existing one: a variable named in the new spec always wins, existing
variables not named in it are carried over unchanged, and the existing
dataset is never mutated (the embedding is a pure function returning a new
value). -/
def PlotData.join (existing : PlotData) (src : Source)
    (spec : List (String × VarBinding)) : PlotData :=
  let newVars := spec.map Prod.fst
  { frame := existing.frame.filter (fun q => !newVars.contains q.1)
      ++ spec.map (fun q => (q.1, resolveVals src q.2))
  , names := existing.names.filter (fun q => !newVars.contains q.1)
      ++ spec.map (fun q => (q.1, resolveName src q.2))
  , ids := existing.ids.filter (fun q => !newVars.contains q.1)
      ++ spec.map (fun q => (q.1, resolveId src q.2)) }

theorem alookup_append {β : Type} (xs ys : List (String × β)) (v : String) :
    alookup (xs ++ ys) v = ((alookup xs v).or (alookup ys v)) := by
  induction xs with
  | nil => simp [alookup]
  | cons p xs ih =>
    by_cases h : p.1 == v
    · simp [alookup, List.find?, h]
    · simp only [Bool.not_eq_true] at h
      simp only [alookup, List.cons_append, List.find?, h] at ih ⊢
      exact ih

theorem alookup_map_snd {β γ : Type} (spec : List (String × β)) (g : String × β → γ)
    (v : String) (hv : v ∉ spec.map Prod.fst) :
    alookup (spec.map (fun q => (q.1, g q))) v = none := by
  rw [alookup, List.find?_eq_none.mpr, Option.map_none']
  intro p hp
  obtain ⟨q, hq, rfl⟩ := List.mem_map.mp hp
  simp only [beq_iff_eq]
  intro hqv
  exact hv (List.mem_map.mpr ⟨q, hq, hqv⟩)

theorem alookup_cons {β : Type} (a : String) (b : β) (l : List (String × β)) (c : String) :
    alookup ((a, b) :: l) c = if a == c then some b else alookup l c := by
  by_cases h : a == c
  · simp [alookup, List.find?, h]
  · simp only [Bool.not_eq_true] at h
    simp [alookup, List.find?, h]

theorem alookup_filter_not_new {β : Type} (l : List (String × β))
    (newVars : List String) (v : String) (hv : v ∉ newVars) :
    alookup (l.filter (fun q => !newVars.contains q.1)) v = alookup l v := by
  induction l with
  | nil => rfl
  | cons p l ih =>
    obtain ⟨a, b⟩ := p
    by_cases hmem : a ∈ newVars
    · have hne : ¬((a == v) = true) := by
        simp only [beq_iff_eq]
        intro hpv
        exact hv (hpv ▸ hmem)
      rw [List.filter_cons_of_neg (by simp [hmem]), ih, alookup_cons, if_neg hne]
    · rw [List.filter_cons_of_pos (by simp [hmem]), alookup_cons, alookup_cons]
      by_cases hc : (a == v) = true
      · rw [if_pos hc, if_pos hc]
      · rw [if_neg hc, if_neg hc, ih]

theorem alookup_filter_all_new {β : Type} (l : List (String × β))
    (newVars : List String) (v : String) (hv : v ∈ newVars) :
    alookup (l.filter (fun q => !newVars.contains q.1)) v = none := by
  rw [alookup, List.find?_eq_none.mpr, Option.map_none']
  intro p hp
  have hkeep := List.of_mem_filter hp
  simp only [Bool.not_eq_true', ← Bool.not_eq_true] at hkeep
  simp only [beq_iff_eq]
  intro hpv
  exact hkeep (by
    rw [hpv]
    exact List.contains_iff_exists_mem_beq.mpr ⟨v, hv, by simp⟩)

theorem alookup_map_mem {β : Type} (spec : List (String × VarBinding))
    (g : String × VarBinding → β) (v : String) (b : VarBinding)
    (hnd : (spec.map Prod.fst).Nodup) (hmem : (v, b) ∈ spec) :
    alookup (spec.map (fun q => (q.1, g q))) v = some (g (v, b)) := by
  induction spec with
  | nil => simp at hmem
  | cons p spec ih =>
    obtain ⟨a, w⟩ := p
    rw [List.map_cons] at hnd
    have hnd2 := List.nodup_cons.mp hnd
    rcases List.mem_cons.mp hmem with heq | hrest
    · obtain ⟨rfl, rfl⟩ : v = a ∧ b = w := Prod.mk.injEq .. ▸ heq
      rw [List.map_cons, alookup_cons, if_pos (by simp)]
    · have hne : ¬((a == v) = true) := by
        simp only [beq_iff_eq]
        intro hpv
        exact hnd2.1 (hpv ▸ List.mem_map.mpr ⟨(v, b), hrest, rfl⟩)
      rw [List.map_cons, alookup_cons, if_neg hne]
      exact ih hnd2.2 hrest

/-- The claim C6: `PlotData.join` gives every variable named in the new
specification its new binding (values, recorded name, identity), carries
over every existing variable not named in the new specification with
unchanged values, and does not mutate the existing dataset (the embedding
is pure, so the existing value is untouched by construction). -/
theorem claim_c6_plotdata_join (existing : PlotData) (src : Source)
    (spec : List (String × VarBinding)) (v : String)
    (hnd : (spec.map Prod.fst).Nodup) :
    (∀ b, (v, b) ∈ spec →
      alookup (existing.join src spec).frame v = some (resolveVals src b)
      ∧ alookup (existing.join src spec).names v = some (resolveName src b)
      ∧ alookup (existing.join src spec).ids v = some (resolveId src b))
    ∧ (v ∉ spec.map Prod.fst →
      alookup (existing.join src spec).frame v = alookup existing.frame v
      ∧ alookup (existing.join src spec).names v = alookup existing.names v
      ∧ alookup (existing.join src spec).ids v = alookup existing.ids v) := by
  constructor
  · intro b hmem
    have hv : v ∈ spec.map Prod.fst := List.mem_map.mpr ⟨(v, b), hmem, rfl⟩
    refine ⟨?_, ?_, ?_⟩ <;>
      rw [PlotData.join, alookup_append, alookup_filter_all_new _ _ _ hv, Option.none_or,
        alookup_map_mem _ _ _ b hnd hmem]
  · intro hv
    refine ⟨?_, ?_, ?_⟩ <;>
      rw [PlotData.join, alookup_append, alookup_map_snd _ _ _ hv,
        alookup_filter_not_new _ _ _ hv, Option.or_none]

/-- Witness for C6 at a concrete instance: an existing dataset binding x and
y, joined with a spec that rebinds y to a source column and adds color as a
direct vector; y takes its new binding and x is carried over unchanged. -/
theorem claim_c6_plotdata_join_witness :
    (alookup (PlotData.join
        ⟨[("x", [Val.num 1]), ("y", [Val.num 2])],
         [("x", some "a"), ("y", some "b")], [("x", 7), ("y", 7)]⟩
        ⟨[("c", [Val.num 9])], 5⟩
        [("y", .colName "c"), ("color", .vector [Val.str "g"] 11)]).frame "y"
      = some [Val.num 9])
    ∧ (alookup (PlotData.join
        ⟨[("x", [Val.num 1]), ("y", [Val.num 2])],
         [("x", some "a"), ("y", some "b")], [("x", 7), ("y", 7)]⟩
        ⟨[("c", [Val.num 9])], 5⟩
        [("y", .colName "c"), ("color", .vector [Val.str "g"] 11)]).frame "x"
      = some [Val.num 1]) := by
  have h := claim_c6_plotdata_join
    ⟨[("x", [Val.num 1]), ("y", [Val.num 2])],
     [("x", some "a"), ("y", some "b")], [("x", 7), ("y", 7)]⟩
    ⟨[("c", [Val.num 9])], 5⟩
    [("y", .colName "c"), ("color", .vector [Val.str "g"] 11)]
  constructor
  · have := (h "y" (by decide)).1 (.colName "c") (List.Mem.head _)
    rw [this.1]
    decide
  · have := (h "x" (by decide)).2 (by decide)
    rw [this.1]
    decide

/-! ## Kernel density estimate (`seaborn/_stats/density.py`) -/

/-- The `common_norm` / `common_grid` parameters of `KDE`: a Python boolean
or a list of variable names. -/
inductive VarsOrBool where
  | bTrue
  | bFalse
  | vlist (vs : List String)
deriving DecidableEq

/-- Embedding of the first statement of `KDE.__call__`: when the data has no
weight column, assign a constant weight of 1. -/
def assignWeightDefault (df : DataFrame) : DataFrame :=
  if df.cols.contains "weight" then df
  else ⟨df.cols ++ ["weight"], df.rows.map (fun r => r ++ [("weight", Val.num 1)])⟩

/-- Embedding of `data.dropna(subset=...)`: keep the rows that are non-null
in every subset column. -/
def dropNA (df : DataFrame) (subset : List String) : DataFrame :=
  ⟨df.cols, df.rows.filter (fun r => subset.all (fun c => rowGet r c != Val.null))⟩

/-- The preprocessing of `KDE.__call__` before fitting: default weights then
dropping rows null in the orient or weight columns. -/
def kdePreprocess (data : DataFrame) (orient : String) : DataFrame :=
  dropNA (assignWeightDefault data) [orient, "weight"]

/-- Embedding of `grouping_vars = [str(v) for v in data if v in
groupby.order]`. -/
def kdeGroupingVars (df : DataFrame) (gbOrder : List String) : List String :=
  df.cols.filter (fun c => gbOrder.contains c)

/-- Embedding of the `common_norm` resolution in `KDE.__call__`: `False`
normalizes per group over all grouping variables, a list keeps its members
that are grouping variables. -/
def kdeNormVars (commonNorm : VarsOrBool) (groupingVars : List String) : List String :=
  match commonNorm with
  | .bTrue => []
  | .bFalse => groupingVars
  | .vlist vs => vs.filter (fun v => groupingVars.contains v)

/-- The values of the given variables in a row, forming its group key. -/
def rowKey (vars : List String) (r : Row) : List Val :=
  vars.map (fun v => rowGet r v)

/-- Add one weight into running per-key totals. -/
def addWeight (sums : List (List Val × ℚ)) (key : List Val) (w : ℚ) :
    List (List Val × ℚ) :=
  match sums with
  | [] => [(key, w)]
  | (k, s) :: rest =>
    if k = key then (k, s + w) :: rest else (k, s) :: addWeight rest key w

/-- Embedding of `data.groupby(norm_vars)["weight"].sum()`: the per-key
totals of the weight column. -/
def groupSums (vars : List String) : List Row → List (List Val × ℚ)
  | [] => []
  | r :: rest => addWeight (groupSums vars rest) (rowKey vars r) (rowGet r "weight").toQ

/-- Lookup of a key in per-key totals, as the pandas `join` on the grouped
sums performs; an absent key joins as missing. -/
def sumLookup (sums : List (List Val × ℚ)) (key : List Val) : Option ℚ :=
  (sums.find? (fun p => p.1 == key)).map Prod.snd

/-- Total of the weight column over all rows. -/
def totalWeight (rows : List Row) : ℚ :=
  (rows.map (fun r => (rowGet r "weight").toQ)).sum

/-- Weight total of the rows whose key on `vars` equals `key`. -/
def filteredWeight (vars : List String) (rows : List Row) (key : List Val) : ℚ :=
  ((rows.filter (fun r => rowKey vars r == key)).map
    (fun r => (rowGet r "weight").toQ)).sum

/-- Pandas-style arithmetic for `density * (weight / group_weight)`: missing
operands propagate. -/
def Val.mulDivWeight (d w gw : Val) : Val :=
  match d, w, gw with
  | .num a, .num b, .num c => .num (a * b / c)
  | _, _, _ => .null

/-- Overwrite every entry of a column within a row, as pandas column
assignment does on an existing column. -/
def rowOverwrite : Row → String → Val → Row
  | [], _, _ => []
  | (a, b) :: rest, c, v =>
    if a == c then (c, v) :: rowOverwrite rest c v
    else (a, b) :: rowOverwrite rest c v

/-- Embedding of pandas column assignment on one row: overwrite an existing
column in place or append a new one. -/
def rowSet (r : Row) (c : String) (v : Val) : Row :=
  if rowHas r c then rowOverwrite r c v else r ++ [(c, v)]

/-- Embedding of `DataFrame.drop(columns)` restricted to one row. -/
def rowDrop (r : Row) (cs : List String) : Row :=
  r.filter (fun p => !cs.contains p.1)

/-- Column-list update for pandas column assignment. -/
def colsSet (cols : List String) (c : String) : List String :=
  if cols.contains c then cols else cols ++ [c]

/-- Embedding of the `group_weight` column assignment in `KDE.__call__`: the
global weight total when `common_norm` is `True` or there are no grouping
variables, otherwise the per-norm-group totals joined on the norm variables
(an unmatched key joins as missing). -/
def kdeGroupWeightCol (data : DataFrame) (commonNorm : VarsOrBool)
    (groupingVars : List String) (r : Row) : Val :=
  if groupingVars.isEmpty || commonNorm == VarsOrBool.bTrue then
    Val.num (totalWeight data.rows)
  else
    match sumLookup (groupSums (kdeNormVars commonNorm groupingVars) data.rows)
        (rowKey (kdeNormVars commonNorm groupingVars) r) with
    | some s => Val.num s
    | none => Val.null

/-- Embedding of `value = {"x": "y", "y": "x"}[orient]`. -/
def kdeValueCol (orient : String) : String := if orient = "x" then "y" else "x"

/-- The per-row effect of the normalization tail of `KDE.__call__`: set the
`group_weight` column, rescale `density` by `weight / group_weight`, copy
the rescaled density into the value coordinate column, and drop the
`weight` and `group_weight` columns. -/
def kdeStep (data : DataFrame) (commonNorm : VarsOrBool) (groupingVars : List String)
    (orient : String) (r : Row) : Row :=
  let gw := kdeGroupWeightCol data commonNorm groupingVars r
  let r1 := rowSet r "group_weight" gw
  let d := Val.mulDivWeight (rowGet r1 "density") (rowGet r1 "weight") gw
  let r2 := rowSet r1 "density" d
  let r3 := rowSet r2 (kdeValueCol orient) (rowGet r2 "density")
  rowDrop r3 ["weight", "group_weight"]

/-- Embedding of the normalization tail of `KDE.__call__` at the frame
level. -/
def kdeFinalize (data : DataFrame) (res : DataFrame) (commonNorm : VarsOrBool)
    (groupingVars : List String) (orient : String) : DataFrame :=
  ⟨(colsSet (colsSet res.cols "group_weight") (kdeValueCol orient)).filter
      (fun c => !(["weight", "group_weight"] : List String).contains c),
   res.rows.map (kdeStep data commonNorm groupingVars orient)⟩

/-- Embedding of `KDE.__call__`.  The per-group fitting (`_transform` and
`GroupBy.apply`, whose bodies are absent from the source tree) is abstracted
as the `transform` argument producing the fitted result table; the concrete
preprocessing and normalization around it follow the source. -/
def KDE.call (transform : DataFrame → DataFrame) (commonNorm : VarsOrBool)
    (gbOrder : List String) (orient : String) (data : DataFrame) : DataFrame :=
  let data2 := kdePreprocess data orient
  let groupingVars := kdeGroupingVars data2 gbOrder
  let res := transform data2
  kdeFinalize data2 res commonNorm groupingVars orient

/-- The group weight the specification assigns to a fitted row: the total
weight of its `common_norm` group, the global total when normalization is
common or ungrouped. -/
def kdeGroupWeightSpec (data : DataFrame) (commonNorm : VarsOrBool)
    (groupingVars : List String) (r : Row) : Val :=
  if groupingVars.isEmpty || commonNorm == VarsOrBool.bTrue then
    Val.num (totalWeight data.rows)
  else
    if data.rows.any (fun q => rowKey (kdeNormVars commonNorm groupingVars) q
        == rowKey (kdeNormVars commonNorm groupingVars) r) then
      Val.num (filteredWeight (kdeNormVars commonNorm groupingVars) data.rows
        (rowKey (kdeNormVars commonNorm groupingVars) r))
    else Val.null

theorem alookup_none_of_not_has (r : Row) (c : String) (h : rowHas r c = false) :
    alookup r c = none := by
  rw [alookup, List.find?_eq_none.mpr, Option.map_none']
  intro p hp
  have := List.any_eq_false.mp h
  exact fun hc => this p hp hc

theorem rowGet_rowOverwrite_same (r : Row) (c : String) (v : Val)
    (h : rowHas r c = true) : rowGet (rowOverwrite r c v) c = v := by
  induction r with
  | nil => simp [rowHas] at h
  | cons p r ih =>
    obtain ⟨a, b⟩ := p
    rw [rowOverwrite]
    by_cases hac : (a == c) = true
    · rw [if_pos hac, rowGet_cons, if_pos (by simp)]
    · rw [if_neg hac, rowGet_cons, if_neg hac]
      apply ih
      simpa [rowHas, List.any_cons, hac] using h

theorem rowGet_rowOverwrite_other (r : Row) (c c2 : String) (v : Val)
    (h : ¬(c2 = c)) : rowGet (rowOverwrite r c v) c2 = rowGet r c2 := by
  induction r with
  | nil => rfl
  | cons p r ih =>
    obtain ⟨a, b⟩ := p
    rw [rowOverwrite]
    by_cases hac : (a == c) = true
    · have ha : a = c := by simpa using hac
      subst ha
      rw [if_pos (by simp), rowGet_cons, rowGet_cons]
      have hcc : ¬((a == c2) = true) := by
        simp only [beq_iff_eq]
        exact fun hh => h hh.symm
      rw [if_neg hcc, if_neg hcc]
      exact ih
    · rw [if_neg hac, rowGet_cons, rowGet_cons]
      by_cases h2 : (a == c2) = true
      · rw [if_pos h2, if_pos h2]
      · rw [if_neg h2, if_neg h2]
        exact ih

theorem rowGet_rowSet_same (r : Row) (c : String) (v : Val) :
    rowGet (rowSet r c v) c = v := by
  unfold rowSet
  by_cases h : rowHas r c
  · rw [if_pos h]
    exact rowGet_rowOverwrite_same r c v h
  · rw [if_neg h]
    have hnone := alookup_none_of_not_has r c (by simpa using h)
    rw [rowGet, alookup_append, hnone, Option.none_or]
    simp [alookup, List.find?]

theorem rowGet_rowSet_other (r : Row) (c c2 : String) (v : Val) (h : ¬(c2 = c)) :
    rowGet (rowSet r c v) c2 = rowGet r c2 := by
  unfold rowSet
  by_cases hh : rowHas r c
  · rw [if_pos hh]
    exact rowGet_rowOverwrite_other r c c2 v h
  · rw [if_neg hh, rowGet, alookup_append]
    have hone : alookup [(c, v)] c2 = none := by
      simp only [alookup, List.find?]
      rw [show (c == c2) = false from beq_eq_false_iff_ne.mpr (fun hcc => h hcc.symm)]
      rfl
    rw [hone, Option.or_none]
    rfl

theorem rowGet_rowDrop (r : Row) (cs : List String) (c : String) (h : c ∉ cs) :
    rowGet (rowDrop r cs) c = rowGet r c := by
  unfold rowDrop rowGet
  rw [alookup_filter_not_new r cs c h]

theorem rowHas_rowDrop (r : Row) (cs : List String) (c : String) (h : c ∈ cs) :
    rowHas (rowDrop r cs) c = false := by
  unfold rowDrop rowHas
  rw [List.any_eq_false]
  intro p hp
  have hkeep := List.of_mem_filter hp
  have hnm : p.1 ∉ cs := by simpa using hkeep
  simp only [beq_iff_eq]
  exact fun hpc => hnm (hpc ▸ h)

theorem sumLookup_cons (k : List Val) (s : ℚ) (rest : List (List Val × ℚ))
    (key : List Val) :
    sumLookup ((k, s) :: rest) key = if k = key then some s else sumLookup rest key := by
  by_cases h : k = key
  · simp [sumLookup, List.find?, h]
  · have hb : (k == key) = false := beq_eq_false_iff_ne.mpr h
    simp [sumLookup, List.find?, hb, h]

theorem sumLookup_addWeight_same (sums : List (List Val × ℚ)) (k : List Val) (w : ℚ) :
    sumLookup (addWeight sums k w) k = some ((sumLookup sums k).getD 0 + w) := by
  induction sums with
  | nil => simp [addWeight, sumLookup, List.find?]
  | cons p rest ih =>
    obtain ⟨k2, s⟩ := p
    rw [addWeight]
    by_cases h : k2 = k
    · rw [if_pos h, sumLookup_cons, if_pos h, sumLookup_cons, if_pos h]
      simp
    · rw [if_neg h, sumLookup_cons, if_neg h, sumLookup_cons, if_neg h]
      exact ih

theorem sumLookup_addWeight_other (sums : List (List Val × ℚ)) (k key : List Val)
    (w : ℚ) (h : ¬(k = key)) :
    sumLookup (addWeight sums k w) key = sumLookup sums key := by
  induction sums with
  | nil =>
    simp [addWeight, sumLookup, List.find?, beq_eq_false_iff_ne.mpr h]
  | cons p rest ih =>
    obtain ⟨k2, s⟩ := p
    rw [addWeight]
    by_cases h2 : k2 = k
    · rw [if_pos h2, sumLookup_cons, sumLookup_cons]
      subst h2
      rw [if_neg h, if_neg h]
    · rw [if_neg h2, sumLookup_cons, sumLookup_cons]
      by_cases h3 : k2 = key
      · rw [if_pos h3, if_pos h3]
      · rw [if_neg h3, if_neg h3]
        exact ih

/-- The joined per-key totals agree with the direct filtered weight total:
present keys give the sum of matching rows' weights, absent keys are
missing. -/
theorem sumLookup_groupSums (vars : List String) (rows : List Row) (key : List Val) :
    sumLookup (groupSums vars rows) key
      = if rows.any (fun r => rowKey vars r == key) then
          some (filteredWeight vars rows key)
        else none := by
  induction rows with
  | nil => simp [groupSums, sumLookup, List.find?, filteredWeight]
  | cons r rest ih =>
    rw [groupSums]
    by_cases h : rowKey vars r = key
    · subst h
      have hcons : ((r :: rest).any fun q => rowKey vars q == rowKey vars r) = true := by
        rw [List.any_cons, beq_self_eq_true, Bool.true_or]
      have hfw : filteredWeight vars (r :: rest) (rowKey vars r)
          = (rowGet r "weight").toQ + filteredWeight vars rest (rowKey vars r) := by
        unfold filteredWeight
        rw [List.filter_cons_of_pos (by simp)]
        simp
      rw [sumLookup_addWeight_same, ih, if_pos hcons, hfw]
      by_cases hrest : rest.any (fun q => rowKey vars q == rowKey vars r) = true
      · rw [if_pos hrest]
        simp [add_comm]
      · rw [if_neg hrest]
        have hzero : filteredWeight vars rest (rowKey vars r) = 0 := by
          unfold filteredWeight
          rw [List.filter_eq_nil_iff.mpr]
          · simp
          · intro q hq
            simp only [Bool.not_eq_true]
            rcases Bool.eq_false_or_eq_true (rowKey vars q == rowKey vars r) with ht | hf
            · exact absurd (List.any_eq_true.mpr ⟨q, hq, ht⟩) hrest
            · exact hf
        simp [hzero]
    · have hhead : (rowKey vars r == key) = false := beq_eq_false_iff_ne.mpr h
      have hconsany : ((r :: rest).any fun q => rowKey vars q == key)
          = rest.any (fun q => rowKey vars q == key) := by
        rw [List.any_cons, hhead, Bool.false_or]
      have hfw : filteredWeight vars (r :: rest) key = filteredWeight vars rest key := by
        unfold filteredWeight
        rw [List.filter_cons_of_neg (by simp [hhead])]
      rw [sumLookup_addWeight_other _ _ _ _ h, ih, hconsany, hfw]

/-- The joined `group_weight` column equals the specification's norm-group
weight total. -/
theorem kdeGroupWeightCol_eq_spec (data : DataFrame) (commonNorm : VarsOrBool)
    (groupingVars : List String) (r : Row) :
    kdeGroupWeightCol data commonNorm groupingVars r
      = kdeGroupWeightSpec data commonNorm groupingVars r := by
  unfold kdeGroupWeightCol kdeGroupWeightSpec
  by_cases hg : (groupingVars.isEmpty || commonNorm == VarsOrBool.bTrue) = true
  · rw [if_pos hg, if_pos hg]
  · rw [if_neg hg, if_neg hg, sumLookup_groupSums]
    by_cases hany : (data.rows.any fun q =>
        rowKey (kdeNormVars commonNorm groupingVars) q
          == rowKey (kdeNormVars commonNorm groupingVars) r) = true
    · rw [if_pos hany, if_pos hany]
    · rw [if_neg hany, if_neg hany]

theorem rowGet_kdeStep_density (data : DataFrame) (commonNorm : VarsOrBool)
    (groupingVars : List String) (orient : String) (r : Row) :
    rowGet (kdeStep data commonNorm groupingVars orient r) "density"
      = Val.mulDivWeight (rowGet r "density") (rowGet r "weight")
          (kdeGroupWeightSpec data commonNorm groupingVars r) := by
  have hvd : ¬(("density" : String) = kdeValueCol orient) := by
    unfold kdeValueCol
    by_cases h : orient = "x" <;> simp [h]
  simp only [kdeStep]
  rw [rowGet_rowDrop _ _ _ (by decide)]
  rw [rowGet_rowSet_other _ _ _ _ hvd]
  rw [rowGet_rowSet_same]
  rw [rowGet_rowSet_other _ _ _ _ (show ¬(("density" : String) = "group_weight") by decide)]
  rw [rowGet_rowSet_other _ _ _ _ (show ¬(("weight" : String) = "group_weight") by decide)]
  rw [kdeGroupWeightCol_eq_spec]

theorem not_mem_filter_banned (l : List String) (c0 : String) (banned : List String)
    (h : c0 ∈ banned) : c0 ∉ l.filter (fun c => !banned.contains c) := by
  intro hmem
  have hkeep := List.of_mem_filter hmem
  have hnm : c0 ∉ banned := by simpa using hkeep
  exact hnm h

/-- The claim C7: the output of `KDE.__call__` carries no `weight` or
`group_weight` column, and every output row's density equals the
independently fitted density multiplied by `weight / group_weight`, where
the group weight is the weight total of the row's `common_norm` group (the
global total when `common_norm` is True or there are no grouping
variables).  The fitting itself (`_transform`, body absent from the source
tree) is quantified over as `transform`. -/
theorem claim_c7_kde_rescaling (transform : DataFrame → DataFrame)
    (commonNorm : VarsOrBool) (gbOrder : List String) (orient : String)
    (data : DataFrame) (i : ℕ)
    (hi : i < (transform (kdePreprocess data orient)).rows.length) :
    "weight" ∉ (KDE.call transform commonNorm gbOrder orient data).cols
    ∧ "group_weight" ∉ (KDE.call transform commonNorm gbOrder orient data).cols
    ∧ (∀ r ∈ (KDE.call transform commonNorm gbOrder orient data).rows,
        rowHas r "weight" = false ∧ rowHas r "group_weight" = false)
    ∧ rowGet ((KDE.call transform commonNorm gbOrder orient data).rows.getD i []) "density"
      = Val.mulDivWeight
          (rowGet ((transform (kdePreprocess data orient)).rows.getD i []) "density")
          (rowGet ((transform (kdePreprocess data orient)).rows.getD i []) "weight")
          (kdeGroupWeightSpec (kdePreprocess data orient) commonNorm
            (kdeGroupingVars (kdePreprocess data orient) gbOrder)
            ((transform (kdePreprocess data orient)).rows.getD i [])) := by
  have hcall : KDE.call transform commonNorm gbOrder orient data
      = kdeFinalize (kdePreprocess data orient) (transform (kdePreprocess data orient))
          commonNorm (kdeGroupingVars (kdePreprocess data orient) gbOrder) orient := rfl
  refine ⟨?_, ?_, ?_, ?_⟩
  · rw [hcall]
    exact not_mem_filter_banned _ _ _ (by simp)
  · rw [hcall]
    exact not_mem_filter_banned _ _ _ (by simp)
  · rw [hcall]
    intro r hr
    obtain ⟨q, hq, rfl⟩ := List.mem_map.mp hr
    exact ⟨rowHas_rowDrop _ _ _ (by simp), rowHas_rowDrop _ _ _ (by simp)⟩
  · rw [hcall]
    have hrow : (kdeFinalize (kdePreprocess data orient)
          (transform (kdePreprocess data orient)) commonNorm
          (kdeGroupingVars (kdePreprocess data orient) gbOrder) orient).rows.getD i []
        = kdeStep (kdePreprocess data orient) commonNorm
            (kdeGroupingVars (kdePreprocess data orient) gbOrder) orient
            ((transform (kdePreprocess data orient)).rows.getD i []) := by
      show ((transform (kdePreprocess data orient)).rows.map _).getD i [] = _
      rw [List.getD_eq_getElem?_getD, List.getElem?_map, List.getElem?_eq_getElem hi]
      simp [List.getD_eq_getElem?_getD, List.getElem?_eq_getElem hi]
    rw [hrow, rowGet_kdeStep_density]

/-- Witness for C7 at a concrete instance: ungrouped normalization over one
fitted row with density 1/2 and weight 2 in a norm group of total weight 1
rescales the density to 1, and the output drops the weight columns. -/
theorem claim_c7_kde_rescaling_witness :
    rowGet ((KDE.call
        (fun _ => ⟨["x", "density", "weight", "g"],
          [[("g", Val.str "a"), ("x", Val.num 0), ("density", Val.num (1/2)),
            ("weight", Val.num 2)]]⟩)
        VarsOrBool.bFalse ["g"] "x"
        ⟨["x", "g"], [[("x", Val.num 1), ("g", Val.str "a")],
          [("x", Val.num 2), ("g", Val.str "b")]]⟩).rows.getD 0 []) "density"
      = Val.num 1
    ∧ "weight" ∉ (KDE.call
        (fun _ => ⟨["x", "density", "weight", "g"],
          [[("g", Val.str "a"), ("x", Val.num 0), ("density", Val.num (1/2)),
            ("weight", Val.num 2)]]⟩)
        VarsOrBool.bFalse ["g"] "x"
        ⟨["x", "g"], [[("x", Val.num 1), ("g", Val.str "a")],
          [("x", Val.num 2), ("g", Val.str "b")]]⟩).cols := by
  have h := claim_c7_kde_rescaling
    (fun _ => ⟨["x", "density", "weight", "g"],
      [[("g", Val.str "a"), ("x", Val.num 0), ("density", Val.num (1/2)),
        ("weight", Val.num 2)]]⟩)
    VarsOrBool.bFalse ["g"] "x"
    ⟨["x", "g"], [[("x", Val.num 1), ("g", Val.str "a")],
      [("x", Val.num 2), ("g", Val.str "b")]]⟩ 0 (by decide)
  refine ⟨?_, h.1⟩
  rw [h.2.2.2]
  norm_num +decide [kdePreprocess, dropNA, assignWeightDefault, kdeGroupingVars,
    kdeGroupWeightSpec, kdeNormVars, filteredWeight, totalWeight, rowKey, rowGet, alookup,
    List.find?, Val.toQ, Val.mulDivWeight,
    show ("g" == "density") = false from rfl, show ("x" == "density") = false from rfl,
    show ("g" == "weight") = false from rfl, show ("x" == "weight") = false from rfl,
    show ("density" == "weight") = false from rfl]

/-! ## Scale transform pipeline (`seaborn/_core/scales.py`) -/

/-- The input to `Scale.__call__`: scalar data or array-like data. -/
inductive ScaleInput (α : Type) where
  | scalar (x : α)
  | vec (xs : List α)
deriving DecidableEq

/-- Embedding of the pipeline loop of `Scale.__call__`: each non-null
function is applied in list order, null entries are skipped. -/
def runPipeline {α : Type} (pipeline : List (Option (List α → List α)))
    (xs : List α) : List α :=
  pipeline.foldl (fun acc f =>
    match f with
    | none => acc
    | some g => g acc) xs

/-- Embedding of `Scale.__call__`: scalar data is wrapped into a one-element
array before the pipeline and unwrapped afterwards (`none` models the
IndexError raised if a pipeline emptied the data); array-like data passes
through directly. -/
def Scale.call {α : Type} (pipeline : List (Option (List α → List α))) :
    ScaleInput α → Option (ScaleInput α)
  | .scalar x => ((runPipeline pipeline [x]).head?).map ScaleInput.scalar
  | .vec xs => some (.vec (runPipeline pipeline xs))

/-- The reference semantics of the pipeline: apply each non-null function to
the data in list order, skipping entries that are None. -/
def composePipeline {α : Type} : List (Option (List α → List α)) → List α → List α
  | [], xs => xs
  | none :: rest, xs => composePipeline rest xs
  | some g :: rest, xs => composePipeline rest (g xs)

theorem runPipeline_eq_compose {α : Type} (pipeline : List (Option (List α → List α)))
    (xs : List α) : runPipeline pipeline xs = composePipeline pipeline xs := by
  induction pipeline generalizing xs with
  | nil => rfl
  | cons f rest ih =>
    cases f with
    | none =>
      rw [composePipeline, ← ih]
      rfl
    | some g =>
      rw [composePipeline, ← ih]
      rfl

theorem composePipeline_length {α : Type} (pipeline : List (Option (List α → List α)))
    (xs : List α)
    (h : ∀ g ∈ pipeline.filterMap id, ∀ ys : List α, (g ys).length = ys.length) :
    (composePipeline pipeline xs).length = xs.length := by
  induction pipeline generalizing xs with
  | nil => rfl
  | cons f rest ih =>
    cases f with
    | none =>
      rw [composePipeline]
      exact ih xs (fun g hg => h g (by simpa using hg))
    | some g =>
      rw [composePipeline]
      rw [ih (g xs) (fun g2 hg2 => h g2 (by simp; right; exact (by simpa using hg2)))]
      exact h g (by simp) xs

/-- The claim C9: for every pipeline and input, `Scale.__call__` applies
each non-null pipeline function in list order, skipping None entries;
scalar input returns a scalar, array-like input an array-like of matching
length (for the length claim the pipeline entries are the data→data
functions of a fitted scale, which are elementwise and preserve length). -/
theorem claim_c9_scale_call {α : Type} (pipeline : List (Option (List α → List α)))
    (x : α) (xs : List α)
    (hlen : ∀ g ∈ pipeline.filterMap id, ∀ ys : List α, (g ys).length = ys.length) :
    Scale.call pipeline (.vec xs) = some (.vec (composePipeline pipeline xs))
    ∧ (composePipeline pipeline xs).length = xs.length
    ∧ ∃ y : α, Scale.call pipeline (.scalar x) = some (.scalar y)
        ∧ composePipeline pipeline [x] = [y] := by
  refine ⟨?_, composePipeline_length pipeline xs hlen, ?_⟩
  · rw [Scale.call, runPipeline_eq_compose]
  · have h1 : (composePipeline pipeline [x]).length = 1 :=
      composePipeline_length pipeline [x] hlen
    obtain ⟨y, hy⟩ := List.length_eq_one.mp h1
    refine ⟨y, ?_, hy⟩
    rw [Scale.call, runPipeline_eq_compose, hy]
    rfl

/-- Witness for C9 at a concrete pipeline of two elementwise functions with
a skipped null entry, on scalar input 3 and vector input [1, 2]. -/
theorem claim_c9_scale_call_witness :
    Scale.call [some (List.map (fun z : ℤ => z + 1)), none,
        some (List.map (fun z : ℤ => z * 2))] (.vec [1, 2])
      = some (.vec (composePipeline [some (List.map (fun z : ℤ => z + 1)), none,
          some (List.map (fun z : ℤ => z * 2))] [1, 2]))
    ∧ ∃ y : ℤ, Scale.call [some (List.map (fun z : ℤ => z + 1)), none,
        some (List.map (fun z : ℤ => z * 2))] (.scalar 3)
      = some (.scalar y) := by
  have h := claim_c9_scale_call
    [some (List.map (fun z : ℤ => z + 1)), none, some (List.map (fun z : ℤ => z * 2))]
    (3 : ℤ) [1, 2]
    (by
      intro g hg ys
      have hg2 : g = List.map (fun z : ℤ => z + 1) ∨ g = List.map (fun z : ℤ => z * 2) := by
        simpa using hg
      rcases hg2 with rfl | rfl
      · exact List.length_map _ _
      · exact List.length_map _ _)
  obtain ⟨y, hy1, _⟩ := h.2.2
  exact ⟨h.1, y, hy1⟩

/-! ## KDE construction check (`seaborn/_stats/density.py`) -/

/-- Embedding of `KDE.__post_init__`: cumulative KDE evaluation requires
scipy.  The flag `noScipy` embeds the module-level `_no_scipy`, true
exactly when importing scipy failed and the fallback implementation was
loaded. -/
def KDE.postInit (cumulative noScipy : Bool) : Except PyError Unit :=
  if cumulative && noScipy then
    .error (.runtimeError "Cumulative KDE evaluation requires scipy")
  else
    .ok ()

/-- The claim C10: constructing a KDE with cumulative=True raises
RuntimeError at construction time if and only if scipy is unavailable; with
scipy available, or with cumulative=False, construction succeeds. -/
theorem claim_c10_kde_postinit (cumulative noScipy : Bool) :
    (KDE.postInit cumulative noScipy
        = .error (.runtimeError "Cumulative KDE evaluation requires scipy")
      ↔ cumulative = true ∧ noScipy = true)
    ∧ ((cumulative = false ∨ noScipy = false) →
        KDE.postInit cumulative noScipy = .ok ()) := by
  cases cumulative <;> cases noScipy <;> simp [KDE.postInit]

/-- Witness for C10 at concrete flags: cumulative without scipy errors,
cumulative with scipy succeeds. -/
theorem claim_c10_kde_postinit_witness :
    KDE.postInit true true
      = .error (.runtimeError "Cumulative KDE evaluation requires scipy")
    ∧ KDE.postInit true false = .ok () :=
  ⟨(claim_c10_kde_postinit true true).1.mpr (by decide),
   (claim_c10_kde_postinit true false).2 (by decide)⟩

end Seaborn
